import Mathlib

/-!
Verification of the GDB Remote Serial Protocol decoder in
`src/gdb_client/parser.rs` of the `rdbg` repository.

The Rust source is a collection of `nom` streaming parsers over byte
slices.  We embed byte slices as `List Nat` (each element a byte value
below 256 as produced by the wire), and the three-way `nom` outcome
(`Err::Incomplete`, `Err::Error`, `Ok`) as the inductive `PResult`.
Machine-integer arithmetic is modelled with explicit `% 2 ^ w`
reductions (release-profile wrapping semantics) at exactly the spots
where the source performs fixed-width arithmetic.
-/

set_option autoImplicit false

namespace Rdbg

/-- The subset of `nom::error::ErrorKind` tags this module can produce. -/
inductive NomKind where
  | Tag
  | TakeUntil
  | Many1
  | Alt
  deriving Repr, DecidableEq

/-- Embedding of `ExpandError` from `parser.rs`: the three failure
classifications of body expansion. -/
inductive ExpandError where
  | EscapedByte
  | RunLengthCount
  | RunLengthByte
  deriving Repr, DecidableEq

/-- Embedding of `std::str::Utf8Error`: position of the first invalid or
incomplete sequence, and the length of the invalid sequence (`none` when
the input merely ended early). -/
structure Utf8Error where
  valid_up_to : Nat
  error_len : Option Nat
  deriving Repr, DecidableEq

/-- Embedding of `ErrorKind` from `parser.rs`.  The `char` payload of
`ExpectedHexDigit` is represented by its code point (the Rust code casts
the byte with `as char`, so the code point equals the byte value). -/
inductive ErrorKind where
  | ExpectedHexDigit (c : Nat)
  | FailedChecksum (expected actual : Nat)
  | ExpandBody (e : ExpandError)
  | Utf8 (e : Utf8Error)
  | App (code : Nat)
  | Nom (k : NomKind)
  deriving Repr, DecidableEq

/-- Embedding of `Error` from `parser.rs`: the offending input (owned
copy), the classified kind, an optional context label, and the
accumulated cause chain. -/
structure Error where
  input : List Nat
  kind : ErrorKind
  context : Option String
  causes : List ErrorKind
  deriving Repr, DecidableEq

/-- `Error::new_inner`: an error with no context and no causes. -/
def Error.new_inner (input : List Nat) (kind : ErrorKind) : Error :=
  { input := input, kind := kind, context := none, causes := [] }

/-- `<Error as ParseError>::append`: pushes a nom classification onto the
cause chain; the fresh input slice is ignored by the source. -/
def Error.append (_input : List Nat) (k : NomKind) (e : Error) : Error :=
  { e with causes := e.causes ++ [ErrorKind.Nom k] }

/-- `<Error as ContextError>::add_context`: records the context label. -/
def Error.add_context (_input : List Nat) (ctx : String) (e : Error) : Error :=
  { e with context := some ctx }

/-- The three-way outcome of a nom streaming parser:
`Err::Incomplete`, `Err::Error`, or `Ok((remaining, value))`. -/
inductive PResult (α : Type) where
  | incomplete : PResult α
  | err : Error → PResult α
  | ok : List Nat → α → PResult α
  deriving Repr, DecidableEq

/-- Sequencing that mirrors the `?` operator on `IResult`: both
`Err::Incomplete` and `Err::Error` propagate unchanged. -/
def PResult.bind {α β : Type} (r : PResult α) (f : List Nat → α → PResult β) : PResult β :=
  match r with
  | .incomplete => .incomplete
  | .err e => .err e
  | .ok i a => f i a

/-- `nom::bytes::streaming::take`: needs more input when the buffer is
shorter than the requested count. -/
def take (n : Nat) (i : List Nat) : PResult (List Nat) :=
  if i.length < n then .incomplete else .ok (i.drop n) (i.take n)

/-- `nom::bytes::streaming::tag`: a mismatch anywhere in the overlap is
a definite error; a clean but short match needs more input. -/
def tag (t : List Nat) (i : List Nat) : PResult (List Nat) :=
  if t.isPrefixOf i then .ok (i.drop t.length) t
  else if i.isPrefixOf t then .incomplete
  else .err (Error.new_inner i (.Nom .Tag))

/-- Index of the first occurrence of `t` as a contiguous sublist. -/
def findSub (t : List Nat) : List Nat → Option Nat
  | [] => if t.isPrefixOf ([] : List Nat) then some 0 else none
  | x :: rest =>
    if t.isPrefixOf (x :: rest) then some 0
    else (findSub t rest).map (· + 1)

/-- `nom::bytes::streaming::take_until`: consumes up to (excluding) the
first occurrence of `t`; needs more input while no occurrence exists. -/
def take_until (t : List Nat) (i : List Nat) : PResult (List Nat) :=
  match findSub t i with
  | some k => .ok (i.drop k) (i.take k)
  | none => .incomplete

/-- Iteration core of `nom::multi::many1`.  The fuel argument bounds the
number of iterations; callers pass `remaining length + 1`, which is never
exhausted for parsers that consume at least one byte per success (nom's
own loop likewise errors with `Many1` on a non-consuming success). -/
def many1Go {α : Type} (f : List Nat → PResult α) :
    Nat → List Nat → List α → PResult (List α)
  | 0, i, _ => .err (Error.new_inner i (.Nom .Many1))
  | fuel + 1, i, acc =>
    match f i with
    | .err _ => .ok i acc.reverse
    | .incomplete => .incomplete
    | .ok i1 o =>
      if i1 = i then .err (Error.new_inner i (.Nom .Many1))
      else many1Go f fuel i1 (o :: acc)

/-- `nom::multi::many1`: at least one application; the first failure gets
`Many1` appended to its cause chain, later failures end the repetition. -/
def many1 {α : Type} (f : List Nat → PResult α) (i : List Nat) : PResult (List α) :=
  match f i with
  | .err e => .err (Error.append i .Many1 e)
  | .incomplete => .incomplete
  | .ok i1 o => many1Go f (i1.length + 1) i1 [o]

/-- `nom::branch::alt` specialised to two alternatives: the second is
tried on the original input only after a definite error of the first;
the last error gets `Alt` appended.  `Incomplete` propagates at once. -/
def alt2 {α : Type} (f g : List Nat → PResult α) (i : List Nat) : PResult α :=
  match f i with
  | .err _ =>
    match g i with
    | .err e2 => .err (Error.append i .Alt e2)
    | r => r
  | r => r

/-- `nom::error::context`: labels a definite error with a context name. -/
def pcontext {α : Type} (name : String) (f : List Nat → PResult α) (i : List Nat) : PResult α :=
  match f i with
  | .err e => .err (Error.add_context i name e)
  | r => r

/-- `char::to_digit(16)` for the character whose code point is `c`. -/
def to_digit16 (c : Nat) : Option Nat :=
  if 48 ≤ c ∧ c ≤ 57 then some (c - 48)
  else if 97 ≤ c ∧ c ≤ 102 then some (c - 87)
  else if 65 ≤ c ∧ c ≤ 70 then some (c - 55)
  else none

/-- `hex_digit` from `parser.rs`: consumes one byte; a non-hex byte is
`ExpectedHexDigit` carrying that byte as a char, with the post-take
remainder recorded as the offending input. -/
def hex_digit (i : List Nat) : PResult Nat :=
  (take 1 i).bind fun i1 d =>
    let c := d.headD 0
    match to_digit16 c with
    | none => .err (Error.new_inner i1 (.ExpectedHexDigit c))
    | some v => .ok i1 v

/-- `two_digit_hex` from `parser.rs`: `(d1 << 4) + d2`. -/
def two_digit_hex (i : List Nat) : PResult Nat :=
  (hex_digit i).bind fun i d1 =>
  (hex_digit i).bind fun i d2 =>
  .ok i ((d1 <<< 4) + d2)

/-- `checksum` from `parser.rs`. -/
def checksum (i : List Nat) : PResult Nat :=
  two_digit_hex i

/-- The accumulation loop of `hex_number`:
`num += u64::from(digit) << (4 * idx)` over the reversed digit list, with
release-profile u64 semantics (shift amount masked mod 64, wrapping add
reduced mod `2 ^ 64`). -/
def hexAccum : List Nat → Nat → Nat → Nat
  | [], _, num => num
  | d :: rest, idx, num =>
    hexAccum rest (idx + 1) ((num + (d <<< ((4 * idx) % 64))) % 2 ^ 64)

/-- `hex_number` from `parser.rs`: one or more hex digits via
`many1(hex_digit)`, accumulated big-endian into a `u64`. -/
def hex_number (i : List Nat) : PResult Nat :=
  (many1 hex_digit i).bind fun i digits =>
  .ok i (hexAccum digits.reverse 0 0)

/-- Embedding of the `ThreadId` enum. -/
inductive ThreadId where
  | MultiProcess (pid tid : Nat)
  | SingleProcess (tid : Nat)
  deriving Repr, DecidableEq

/-- `multiprocess_thread_id`: `preceded(tag("p"), tuple((hex_number, tag("."), hex_number)))`. -/
def multiprocess_thread_id (i : List Nat) : PResult ThreadId :=
  (tag [112] i).bind fun i _ =>
  (hex_number i).bind fun i pid =>
  (tag [46] i).bind fun i _ =>
  (hex_number i).bind fun i tid =>
  .ok i (ThreadId.MultiProcess pid tid)

/-- `singleprocess_thread_id`: a bare `hex_number`. -/
def singleprocess_thread_id (i : List Nat) : PResult ThreadId :=
  (hex_number i).bind fun i tid =>
  .ok i (ThreadId.SingleProcess tid)

/-- `thread_id`: the multi-process grammar first, then the single-process
grammar, under the context label `thread_id`. -/
def thread_id (i : List Nat) : PResult ThreadId :=
  pcontext "thread_id" (alt2 multiprocess_thread_id singleprocess_thread_id) i

/-- Embedding of the `HaltReason` struct.  The optional free-text reason
is kept as its byte content (a Rust `String` holds exactly these bytes,
guaranteed valid UTF-8). -/
structure HaltReason where
  signal_num : Nat
  thread : ThreadId
  reason : Option (List Nat)
  deriving Repr, DecidableEq

/-- UTF-8 validation exactly as `core::str::run_utf8_validation`
classifies its first failure: `none` means the whole input is valid;
`some e` records where the first bad or truncated sequence starts and,
for a definitely invalid sequence, how many bytes it spans. -/
def utf8Validate : List Nat → Nat → Option Utf8Error
  | [], _ => none
  | b :: rest, pos =>
    if b < 0x80 then utf8Validate rest (pos + 1)
    else if b < 0xC2 then some ⟨pos, some 1⟩
    else if b ≤ 0xDF then
      match rest with
      | [] => some ⟨pos, none⟩
      | c1 :: rest1 =>
        if 0x80 ≤ c1 ∧ c1 ≤ 0xBF then utf8Validate rest1 (pos + 2)
        else some ⟨pos, some 1⟩
    else if b ≤ 0xEF then
      match rest with
      | [] => some ⟨pos, none⟩
      | c1 :: rest1 =>
        if (b = 0xE0 ∧ 0xA0 ≤ c1 ∧ c1 ≤ 0xBF) ∨
           (0xE1 ≤ b ∧ b ≤ 0xEC ∧ 0x80 ≤ c1 ∧ c1 ≤ 0xBF) ∨
           (b = 0xED ∧ 0x80 ≤ c1 ∧ c1 ≤ 0x9F) ∨
           (0xEE ≤ b ∧ 0x80 ≤ c1 ∧ c1 ≤ 0xBF) then
          match rest1 with
          | [] => some ⟨pos, none⟩
          | c2 :: rest2 =>
            if 0x80 ≤ c2 ∧ c2 ≤ 0xBF then utf8Validate rest2 (pos + 3)
            else some ⟨pos, some 2⟩
        else some ⟨pos, some 1⟩
    else if b ≤ 0xF4 then
      match rest with
      | [] => some ⟨pos, none⟩
      | c1 :: rest1 =>
        if (b = 0xF0 ∧ 0x90 ≤ c1 ∧ c1 ≤ 0xBF) ∨
           (0xF1 ≤ b ∧ b ≤ 0xF3 ∧ 0x80 ≤ c1 ∧ c1 ≤ 0xBF) ∨
           (b = 0xF4 ∧ 0x80 ≤ c1 ∧ c1 ≤ 0x8F) then
          match rest1 with
          | [] => some ⟨pos, none⟩
          | c2 :: rest2 =>
            if 0x80 ≤ c2 ∧ c2 ≤ 0xBF then
              match rest2 with
              | [] => some ⟨pos, none⟩
              | c3 :: rest3 =>
                if 0x80 ≤ c3 ∧ c3 ≤ 0xBF then utf8Validate rest3 (pos + 4)
                else some ⟨pos, some 3⟩
            else some ⟨pos, some 2⟩
        else some ⟨pos, some 1⟩
    else some ⟨pos, some 1⟩

/-- The byte string `thread:`. -/
def threadTag : List Nat := [116, 104, 114, 101, 97, 100, 58]

/-- `halt_reason` from `parser.rs`.  Note the binding
`let (reason, _) = tag(";")(i)?` makes `reason` everything after the
semicolon, and the success value always carries an empty remainder. -/
def halt_reason (i : List Nat) : PResult HaltReason :=
  (tag [84] i).bind fun i _ =>
  (two_digit_hex i).bind fun i signal_num =>
  (tag threadTag i).bind fun i _ =>
  (thread_id i).bind fun i thread =>
  (tag [59] i).bind fun reason _ =>
    match (if reason = [] then Except.ok none
           else
             match utf8Validate reason 0 with
             | some e => Except.error (Error.new_inner reason (.Utf8 e))
             | none => Except.ok (some reason) :
           Except Error (Option (List Nat))) with
    | .error e => .err e
    | .ok r => .ok [] { signal_num := signal_num, thread := thread, reason := r }

/-- `ESCAPE_INDICATOR`, the byte of the char `RBRACE`-like `\x7d`. -/
def ESCAPE_INDICATOR : Nat := 0x7D

/-- `RUN_LENGTH_INDICATOR`, the byte `0x2A`. -/
def RUN_LENGTH_INDICATOR : Nat := 0x2A

instance {ε α : Type} [DecidableEq ε] [DecidableEq α] : DecidableEq (Except ε α) := fun a b =>
  match a, b with
  | .ok a, .ok b =>
    if h : a = b then .isTrue (by rw [h])
    else .isFalse (by intro hh; injection hh; exact h (by assumption))
  | .ok _, .error _ => .isFalse (by intro hh; cases hh)
  | .error _, .ok _ => .isFalse (by intro hh; cases hh)
  | .error e, .error f =>
    if h : e = f then .isTrue (by rw [h])
    else .isFalse (by intro hh; injection hh; exact h (by assumption))

/-- The loop of `expand_body` from `parser.rs`, walking `body` at index
`idx` with accumulated output `out`.  The first `Nat` argument is fuel
bounding the number of loop iterations: since `idx` grows by at least
one per iteration, `body.length - idx` iterations remain, so the fuel
`body.length` supplied by `expand_body` is never exhausted and the
fuel-out branch is unreachable.  The `none` arm of the lookup at `idx`
is the loop condition `idx < body.len()` turning false.  Fixed-width
arithmetic follows the release profile: `count - 28` and the `count - 1`
of the repeat loop wrap in `u8` (the nested `% 256` pair below), and the
`idx - 1` lookup wraps in `usize` (so an indicator at index 0 probes the
huge index `2 ^ 64 - 1` and misses, yielding `RunLengthByte`). -/
def expandGo (body : List Nat) : Nat → Nat → List Nat → Except ExpandError (List Nat)
  | 0, _, out => .ok out
  | fuel + 1, idx, out =>
    match body[idx]? with
    | none => .ok out
    | some byte =>
      if byte = ESCAPE_INDICATOR then
        match body[idx + 1]? with
        | none => .error .EscapedByte
        | some escaped => expandGo body fuel (idx + 2) (out ++ [escaped ^^^ 0x20])
      else if byte = RUN_LENGTH_INDICATOR then
        match body[idx + 1]? with
        | none => .error .RunLengthCount
        | some countByte =>
          match body[(idx + (2 ^ 64 - 1)) % 2 ^ 64]? with
          | none => .error .RunLengthByte
          | some encoded =>
            expandGo body fuel (idx + 2)
              (out ++ List.replicate (((countByte + 256 - 28) % 256 + 256 - 1) % 256) encoded)
      else
        expandGo body fuel (idx + 1) (out ++ [byte])

/-- `expand_body` from `parser.rs`. -/
def expand_body (body : List Nat) : Except ExpandError (List Nat) :=
  expandGo body body.length 0 []

/-- Modelled from the spec: `common::PACKET_START` is not under `src/`;
the wire grammar gives the start marker as the byte of the dollar sign. -/
def PACKET_START : Nat := 36

/-- Modelled from the spec: `common::CHECKSUM_START` is not under
`src/`; the wire grammar gives the checksum marker as the hash byte. -/
def CHECKSUM_START : Nat := 35

/-- Modelled from the spec: `common::compute_checksum` is not under
`src/`; the spec defines the checksum as the sum of all body bytes
modulo 256. -/
def compute_checksum (body : List Nat) : Nat :=
  body.foldl (· + ·) 0 % 256

/-- `packet_body` from `parser.rs`.  The outer `Option` models the
`assert!(rest.is_empty())` on an application-error reply: `none` is the
assertion failure (a panic), `some` the ordinary nom outcome. -/
def packet_body (i : List Nat) : Option (PResult (List Nat)) :=
  match tag [PACKET_START] i with
  | .incomplete => some .incomplete
  | .err e => some (.err e)
  | .ok i _ =>
    match take_until [CHECKSUM_START] i with
    | .incomplete => some .incomplete
    | .err e => some (.err e)
    | .ok i body =>
      let i := i.drop 1
      match checksum i with
      | .incomplete => some .incomplete
      | .err e => some (.err e)
      | .ok i expected =>
        let actual := compute_checksum body
        if expected ≠ actual then
          some (.err (Error.new_inner body (.FailedChecksum expected actual)))
        else if [69].isPrefixOf body then
          let body := body.drop 1
          match two_digit_hex body with
          | .incomplete => some .incomplete
          | .err e => some (.err e)
          | .ok rest code =>
            if rest = [] then some (.err (Error.new_inner body (.App code)))
            else none
        else
          match expand_body body with
          | .error e => some (.err (Error.new_inner body (.ExpandBody e)))
          | .ok b => some (.ok i b)

/-! ### Spec-side value functions -/

/-- The numeric value of a hex-digit byte (0 for non-digits). -/
def hexVal (c : Nat) : Nat := (to_digit16 c).getD 0

/-- The value `hex_number` actually computes from a digit run: the
source accumulation applied to the reversed digit values. -/
def hexRun (run : List Nat) : Nat := hexAccum (run.map hexVal).reverse 0 0

/-- Mathematical value of digit values positioned little-endian from
nibble `idx` upward: `polyVal [d0, d1, ...] idx = Σ dj * 16 ^ (idx + j)`. -/
def polyVal : List Nat → Nat → Nat
  | [], _ => 0
  | d :: r, idx => d * 2 ^ (4 * idx) + polyVal r (idx + 1)

/-- The spec-side big-endian interpretation of a digit-value list. -/
def hexBE (ds : List Nat) : Nat := ds.foldl (fun a d => 16 * a + d) 0

/-- Lowercase hex character of a digit value. -/
def hexChar (d : Nat) : Nat := if d < 10 then 48 + d else 87 + d

/-- The two-lowercase-hex-digit rendering of a byte, as in the spec's
`hex2(sum(b) mod 256)`. -/
def hex2 (n : Nat) : List Nat := [hexChar (n / 16), hexChar (n % 16)]

/-! ### Primitive parser lemmas -/

theorem tag_exact (t rest : List Nat) : tag t (t ++ rest) = .ok rest t := by
  have hpre : t.isPrefixOf (t ++ rest) = true :=
    List.isPrefixOf_iff_prefix.mpr (List.prefix_append t rest)
  simp [tag, hpre, List.drop_left]

theorem hex_digit_ok {c v : Nat} (rest : List Nat) (h : to_digit16 c = some v) :
    hex_digit (c :: rest) = .ok rest v := by
  simp [hex_digit, take, PResult.bind, h]

theorem hex_digit_none {c : Nat} (rest : List Nat) (h : to_digit16 c = none) :
    hex_digit (c :: rest) = .err (Error.new_inner rest (.ExpectedHexDigit c)) := by
  simp [hex_digit, take, PResult.bind, h]

theorem hex_digit_nil : hex_digit [] = .incomplete := rfl

theorem to_digit16_lt {c v : Nat} (h : to_digit16 c = some v) : v < 16 := by
  unfold to_digit16 at h
  split at h
  · injection h with h; omega
  · split at h
    · injection h with h; omega
    · split at h
      · injection h with h; omega
      · exact absurd h (by simp)

theorem to_digit16_some_bounds {c v : Nat} (h : to_digit16 c = some v) :
    (48 ≤ c ∧ c ≤ 57) ∨ (97 ≤ c ∧ c ≤ 102) ∨ (65 ≤ c ∧ c ≤ 70) := by
  unfold to_digit16 at h
  split at h
  · left; assumption
  · split at h
    · right; left; assumption
    · split at h
      · right; right; assumption
      · exact absurd h (by simp)

theorem many1Go_run {x : Nat} (hx : to_digit16 x = none) :
    ∀ (run : List Nat) (rest acc : List Nat) (fuel : Nat),
      (∀ c ∈ run, (to_digit16 c).isSome) → run.length + 1 ≤ fuel →
      many1Go hex_digit fuel (run ++ x :: rest) acc =
        .ok (x :: rest) (acc.reverse ++ run.map hexVal) := by
  intro run
  induction run with
  | nil =>
    intro rest acc fuel _ hfuel
    match fuel, hfuel with
    | fuel + 1, _ =>
      simp [many1Go, hex_digit_none rest hx]
  | cons d run ih =>
    intro rest acc fuel hhex hfuel
    match fuel, hfuel with
    | fuel + 1, hfuel =>
      have hd : (to_digit16 d).isSome := hhex d (by simp)
      obtain ⟨v, hv⟩ := Option.isSome_iff_exists.mp hd
      have hne : run ++ x :: rest ≠ d :: (run ++ x :: rest) := by
        intro h
        have := congrArg List.length h
        simp at this
      simp only [List.length_cons] at hfuel
      simp only [List.cons_append, many1Go, hex_digit_ok _ hv, hne, if_false]
      rw [ih rest (v :: acc) fuel (fun c hc => hhex c (by simp [hc])) (by omega)]
      simp [hexVal, hv]

theorem many1Go_allHex :
    ∀ (i acc : List Nat) (fuel : Nat),
      (∀ c ∈ i, (to_digit16 c).isSome) → i.length + 1 ≤ fuel →
      many1Go hex_digit fuel i acc = .incomplete := by
  intro i
  induction i with
  | nil =>
    intro acc fuel _ hfuel
    match fuel, hfuel with
    | fuel + 1, _ => simp [many1Go, hex_digit_nil]
  | cons d i ih =>
    intro acc fuel hhex hfuel
    match fuel, hfuel with
    | fuel + 1, hfuel =>
      have hd : (to_digit16 d).isSome := hhex d (by simp)
      obtain ⟨v, hv⟩ := Option.isSome_iff_exists.mp hd
      have hne : i ≠ d :: i := by
        intro h
        have := congrArg List.length h
        simp at this
      simp only [List.length_cons] at hfuel
      simp only [many1Go, hex_digit_ok _ hv, hne, if_false]
      exact ih (v :: acc) fuel (fun c hc => hhex c (by simp [hc])) (by omega)

theorem hex_number_run {x : Nat} (hx : to_digit16 x = none)
    (run rest : List Nat) (hne : run ≠ [])
    (hhex : ∀ c ∈ run, (to_digit16 c).isSome) :
    hex_number (run ++ x :: rest) = .ok (x :: rest) (hexRun run) := by
  match run, hne with
  | d :: run, _ =>
    have hd : (to_digit16 d).isSome := hhex d (by simp)
    obtain ⟨v, hv⟩ := Option.isSome_iff_exists.mp hd
    simp only [hex_number, many1, List.cons_append, hex_digit_ok _ hv]
    rw [many1Go_run hx run rest [v] ((run ++ x :: rest).length + 1)
      (fun c hc => hhex c (by simp [hc])) (by simp [List.length_append])]
    simp [PResult.bind, hexRun, hexVal, hv]

theorem hex_number_none {c : Nat} (rest : List Nat) (h : to_digit16 c = none) :
    hex_number (c :: rest) =
      .err { input := rest, kind := .ExpectedHexDigit c, context := none,
             causes := [.Nom .Many1] } := by
  simp [hex_number, many1, hex_digit_none rest h, PResult.bind, Error.append,
    Error.new_inner]

theorem hex_number_allHex (i : List Nat)
    (hhex : ∀ c ∈ i, (to_digit16 c).isSome) : hex_number i = .incomplete := by
  match i with
  | [] => rfl
  | c :: i =>
    have hd : (to_digit16 c).isSome := hhex c (by simp)
    obtain ⟨v, hv⟩ := Option.isSome_iff_exists.mp hd
    simp only [hex_number, many1, hex_digit_ok _ hv]
    rw [many1Go_allHex i [v] (i.length + 1) (fun c hc => hhex c (by simp [hc]))
      (by omega)]
    rfl

/-! ### Arithmetic of the hex accumulation -/

theorem polyVal_le : ∀ (rds : List Nat) (idx : Nat), (∀ d ∈ rds, d < 16) →
    polyVal rds idx + 2 ^ (4 * idx) ≤ 2 ^ (4 * (idx + rds.length)) := by
  intro rds
  induction rds with
  | nil => intro idx _; simp [polyVal]
  | cons d r ih =>
    intro idx hlt
    have hd : d < 16 := hlt d (by simp)
    have hih := ih (idx + 1) (fun x hx => hlt x (by simp [hx]))
    have hpow : 4 * (idx + 1 + r.length) = 4 * (idx + (r.length + 1)) := by ring
    rw [hpow] at hih
    have h16 : 16 * 2 ^ (4 * idx) = 2 ^ (4 * (idx + 1)) := by
      rw [show 4 * (idx + 1) = 4 * idx + 4 by ring, pow_add]
      ring
    have hle : d * 2 ^ (4 * idx) ≤ 15 * 2 ^ (4 * idx) :=
      Nat.mul_le_mul_right _ (by omega)
    simp only [polyVal, List.length_cons]
    omega

theorem hexAccum_closed : ∀ (rds : List Nat) (idx num : Nat),
    (∀ d ∈ rds, d < 16) → 4 * (idx + rds.length) ≤ 64 → num < 2 ^ (4 * idx) →
    hexAccum rds idx num = num + polyVal rds idx := by
  intro rds
  induction rds with
  | nil => intro idx num _ _ _; simp [hexAccum, polyVal]
  | cons d r ih =>
    intro idx num hlt hlen hnum
    have hd : d < 16 := hlt d (by simp)
    simp only [List.length_cons] at hlen
    have hmask : (4 * idx) % 64 = 4 * idx := Nat.mod_eq_of_lt (by omega)
    have hshift : d <<< ((4 * idx) % 64) = d * 2 ^ (4 * idx) := by
      rw [hmask, Nat.shiftLeft_eq]
    have hbound : num + d * 2 ^ (4 * idx) < 2 ^ (4 * (idx + 1)) := by
      have h16 : (16 : Nat) * 2 ^ (4 * idx) = 2 ^ (4 * (idx + 1)) := by
        rw [show 4 * (idx + 1) = 4 * idx + 4 by ring, pow_add]
        ring
      have : d * 2 ^ (4 * idx) ≤ 15 * 2 ^ (4 * idx) :=
        Nat.mul_le_mul_right _ (by omega)
      omega
    have hsmall : num + d * 2 ^ (4 * idx) < 2 ^ 64 := by
      have : (2 : Nat) ^ (4 * (idx + 1)) ≤ 2 ^ 64 :=
        Nat.pow_le_pow_right (by omega) (by omega)
      omega
    simp only [hexAccum, hshift, Nat.mod_eq_of_lt hsmall]
    rw [ih (idx + 1) (num + d * 2 ^ (4 * idx)) (fun x hx => hlt x (by simp [hx]))
      (by omega) hbound]
    simp [polyVal]
    ring

theorem polyVal_succ : ∀ (rds : List Nat) (idx : Nat),
    polyVal rds (idx + 1) = 16 * polyVal rds idx := by
  intro rds
  induction rds with
  | nil => intro idx; simp [polyVal]
  | cons d r ih =>
    intro idx
    simp only [polyVal, ih (idx + 1)]
    rw [show 4 * (idx + 1) = 4 * idx + 4 by ring, pow_add]
    ring

theorem hexBE_polyVal : ∀ ds : List Nat, hexBE ds = polyVal ds.reverse 0 := by
  intro ds
  induction ds using List.reverseRecOn with
  | nil => simp [hexBE, polyVal]
  | append_singleton ds d ih =>
    have : hexBE (ds ++ [d]) = 16 * hexBE ds + d := by
      simp [hexBE, List.foldl_append]
    rw [this, ih]
    simp [polyVal, polyVal_succ]
    ring

/-- For a run of at most 16 hex digits the accumulated value is exactly
the big-endian interpretation: no shift masking and no wrap occurs. -/
theorem hexRun_eq_hexBE (run : List Nat) (hlen : run.length ≤ 16)
    (hhex : ∀ c ∈ run, (to_digit16 c).isSome) :
    hexRun run = hexBE (run.map hexVal) := by
  have hlt : ∀ d ∈ (run.map hexVal).reverse, d < 16 := by
    intro d hd
    simp only [List.mem_reverse, List.mem_map] at hd
    obtain ⟨c, hc, rfl⟩ := hd
    obtain ⟨v, hv⟩ := Option.isSome_iff_exists.mp (hhex c hc)
    simpa [hexVal, hv] using to_digit16_lt hv
  rw [hexRun, hexAccum_closed _ 0 0 hlt (by simp [List.length_reverse]; omega)
    (by simp), hexBE_polyVal]
  simp

/-! ### take_until and two_digit_hex lemmas -/

theorem findSub_mark (mark : Nat) : ∀ (body rest : List Nat), mark ∉ body →
    findSub [mark] (body ++ mark :: rest) = some body.length := by
  intro body
  induction body with
  | nil =>
    intro rest _
    simp [findSub, List.isPrefixOf]
  | cons x body ih =>
    intro rest hmem
    have hx : mark ≠ x := fun h => hmem (by simp [h])
    have hpre : [mark].isPrefixOf (x :: (body ++ mark :: rest)) = false := by
      simp [List.isPrefixOf, hx]
    simp only [List.cons_append, findSub]
    rw [if_neg (by simp [hpre])]
    simp only [List.append_eq]
    rw [ih rest (fun h => hmem (by simp [h]))]
    simp

theorem take_until_mark (mark : Nat) (body rest : List Nat) (h : mark ∉ body) :
    take_until [mark] (body ++ mark :: rest) = .ok (mark :: rest) body := by
  simp [take_until, findSub_mark mark body rest h, List.drop_left, List.take_left]

theorem two_digit_hex_ok {c1 c2 v1 v2 : Nat} (rest : List Nat)
    (h1 : to_digit16 c1 = some v1) (h2 : to_digit16 c2 = some v2) :
    two_digit_hex (c1 :: c2 :: rest) = .ok rest ((v1 <<< 4) + v2) := by
  simp [two_digit_hex, hex_digit_ok _ h1, hex_digit_ok _ h2, PResult.bind]

theorem to_digit16_hexChar {d : Nat} (h : d < 16) :
    to_digit16 (hexChar d) = some d := by
  unfold hexChar to_digit16
  by_cases h10 : d < 10
  · rw [if_pos h10, if_pos (by omega)]
    congr 1
    omega
  · rw [if_neg h10, if_neg (by omega), if_pos (by omega)]
    congr 1
    omega

theorem two_digit_hex_hex2 (n : Nat) (rest : List Nat) (h : n < 256) :
    two_digit_hex (hex2 n ++ rest) = .ok rest n := by
  have h1 : to_digit16 (hexChar (n / 16)) = some (n / 16) :=
    to_digit16_hexChar (by omega)
  have h2 : to_digit16 (hexChar (n % 16)) = some (n % 16) :=
    to_digit16_hexChar (Nat.mod_lt _ (by omega))
  simp only [hex2, List.cons_append, List.nil_append]
  rw [two_digit_hex_ok rest h1 h2]
  congr 1
  rw [Nat.shiftLeft_eq]
  omega

/-! ### Expansion lemmas -/

theorem getElem?_some_lt {l : List Nat} {n a : Nat} (h : l[n]? = some a) :
    n < l.length :=
  (List.getElem?_eq_some.mp h).1

theorem getElem?_some_mem {l : List Nat} {n a : Nat} (h : l[n]? = some a) :
    a ∈ l := by
  obtain ⟨hh, rfl⟩ := List.getElem?_eq_some.mp h
  exact List.getElem_mem hh

theorem tag_single (a : Nat) (rest : List Nat) : tag [a] (a :: rest) = .ok rest [a] := by
  simpa using tag_exact [a] rest

theorem expandGo_clean (body : List Nat)
    (hclean : ∀ x ∈ body, x ≠ ESCAPE_INDICATOR ∧ x ≠ RUN_LENGTH_INDICATOR) :
    ∀ (fuel idx : Nat) (out : List Nat), body.length - idx ≤ fuel →
      expandGo body fuel idx out = .ok (out ++ body.drop idx) := by
  intro fuel
  induction fuel with
  | zero =>
    intro idx out hle
    rw [List.drop_eq_nil_of_le (by omega)]
    simp [expandGo]
  | succ fuel ih =>
    intro idx out hle
    match hidx : body[idx]? with
    | none =>
      have hlen : body.length ≤ idx := List.getElem?_eq_none_iff.mp hidx
      rw [List.drop_eq_nil_of_le hlen]
      simp [expandGo, hidx]
    | some byte =>
      have hmem : byte ∈ body := getElem?_some_mem hidx
      have hcl := hclean byte hmem
      have hlt : idx < body.length := getElem?_some_lt hidx
      simp only [expandGo, hidx]
      rw [if_neg hcl.1, if_neg hcl.2, ih (idx + 1) (out ++ [byte]) (by omega)]
      have hdrop : body.drop idx = byte :: body.drop (idx + 1) := by
        rw [List.drop_eq_getElem_cons hlt]
        obtain ⟨hh, hget⟩ := List.getElem?_eq_some.mp hidx
        rw [hget]
      rw [hdrop]
      simp

theorem expand_body_clean (body : List Nat)
    (hclean : ∀ x ∈ body, x ≠ ESCAPE_INDICATOR ∧ x ≠ RUN_LENGTH_INDICATOR) :
    expand_body body = .ok body := by
  rw [expand_body, expandGo_clean body hclean body.length 0 [] (by omega)]
  simp

/-! ### Framing lemmas for packet_body -/

/-- The continuation of `packet_body` after the start marker, body
extraction and transmitted checksum have been parsed: checksum
comparison, application-error detection, and body expansion. -/
def packetTail (body : List Nat) (expected : Nat) (rest : List Nat) :
    Option (PResult (List Nat)) :=
  if expected ≠ compute_checksum body then
    some (.err (Error.new_inner body (.FailedChecksum expected (compute_checksum body))))
  else if [69].isPrefixOf body then
    match two_digit_hex (body.drop 1) with
    | .incomplete => some .incomplete
    | .err e => some (.err e)
    | .ok r code =>
      if r = [] then some (.err (Error.new_inner (body.drop 1) (.App code)))
      else none
  else
    match expand_body body with
    | .error e => some (.err (Error.new_inner body (.ExpandBody e)))
    | .ok b => some (.ok rest b)

theorem packet_body_frame {c1 c2 v1 v2 : Nat} (body rest : List Nat)
    (hbody : 35 ∉ body) (h1 : to_digit16 c1 = some v1) (h2 : to_digit16 c2 = some v2) :
    packet_body (36 :: (body ++ 35 :: c1 :: c2 :: rest)) =
      packetTail body ((v1 <<< 4) + v2) rest := by
  have htu : take_until [35] (body ++ 35 :: c1 :: c2 :: rest)
      = .ok (35 :: c1 :: c2 :: rest) body := take_until_mark 35 body _ hbody
  simp only [packet_body, PACKET_START, CHECKSUM_START, tag_single, htu, checksum,
    List.drop_succ_cons, List.drop_zero, two_digit_hex_ok _ h1 h2]
  rfl

/-! ### halt_reason framing -/

theorem halt_reason_frame {s1 s2 v1 v2 : Nat} (mid trailing : List Nat) (th : ThreadId)
    (h1 : to_digit16 s1 = some v1) (h2 : to_digit16 s2 = some v2)
    (hth : thread_id mid = .ok (59 :: trailing) th) :
    halt_reason (84 :: s1 :: s2 :: (threadTag ++ mid)) =
      (if trailing = [] then
         .ok [] { signal_num := (v1 <<< 4) + v2, thread := th, reason := none }
       else
         match utf8Validate trailing 0 with
         | some e => .err (Error.new_inner trailing (.Utf8 e))
         | none =>
           .ok [] { signal_num := (v1 <<< 4) + v2, thread := th,
                    reason := some trailing }) := by
  simp only [halt_reason, tag_single, PResult.bind, two_digit_hex_ok _ h1 h2,
    tag_exact threadTag mid, hth]
  by_cases ht : trailing = []
  · simp [ht]
  · simp only [ht, if_false]
    match utf8Validate trailing 0 with
    | some e => rfl
    | none => rfl

/-! ### Run-length step lemmas -/

theorem expandGo_rle_step (body : List Nat) (fuel idx : Nat) (out : List Nat)
    {c prev : Nat}
    (hidx1 : 1 ≤ idx) (hidx2 : idx < 2 ^ 64)
    (hstar : body[idx]? = some RUN_LENGTH_INDICATOR)
    (hcount : body[idx + 1]? = some c)
    (hprev : body[idx - 1]? = some prev) :
    expandGo body (fuel + 1) idx out =
      expandGo body fuel (idx + 2) (out ++ List.replicate ((c + 227) % 256) prev) := by
  have hwrap : (idx + (2 ^ 64 - 1)) % 2 ^ 64 = idx - 1 := by
    have h1 : idx + (2 ^ 64 - 1) = 2 ^ 64 + (idx - 1) := by omega
    rw [h1, Nat.add_mod_left, Nat.mod_eq_of_lt (by omega)]
  have hcnt : ((c + 256 - 28) % 256 + 256 - 1) % 256 = (c + 227) % 256 := by
    omega
  simp only [expandGo, hstar, hcount, hwrap, hprev, RUN_LENGTH_INDICATOR,
    ESCAPE_INDICATOR]
  rw [if_neg (by omega)]
  simp only [if_pos]
  have heq : (c + 228 + 255) % 256 = (c + 227) % 256 := by omega
  simp [heq]

theorem expandGo_rle_missing_count (body : List Nat) (fuel idx : Nat) (out : List Nat)
    (hstar : body[idx]? = some RUN_LENGTH_INDICATOR)
    (hcount : body[idx + 1]? = none) :
    expandGo body (fuel + 1) idx out = .error .RunLengthCount := by
  simp only [expandGo, hstar, hcount, RUN_LENGTH_INDICATOR, ESCAPE_INDICATOR]
  rw [if_neg (by omega)]
  simp

theorem expandGo_rle_at_start (body : List Nat) (fuel : Nat) (out : List Nat)
    {c : Nat}
    (hlen : body.length < 2 ^ 64 - 1)
    (hstar : body[0]? = some RUN_LENGTH_INDICATOR)
    (hcount : body[1]? = some c) :
    expandGo body (fuel + 1) 0 out = .error .RunLengthByte := by
  have hmiss : body[(0 + (2 ^ 64 - 1)) % 2 ^ 64]? = none := by
    apply List.getElem?_eq_none_iff.mpr
    have : (0 + (2 ^ 64 - 1)) % 2 ^ 64 = 2 ^ 64 - 1 :=
      Nat.mod_eq_of_lt (by omega)
    omega
  simp only [expandGo, hstar, hcount, hmiss, RUN_LENGTH_INDICATOR, ESCAPE_INDICATOR]
  rw [if_neg (by omega)]
  simp

/-! ### Small facts about hex digit bytes -/

theorem hex_byte_not_special {c v : Nat} (h : to_digit16 c = some v) :
    c ≠ 35 ∧ c ≠ 125 ∧ c ≠ 42 ∧ c ≠ 112 ∧ c ≠ 46 := by
  rcases to_digit16_some_bounds h with h' | h' | h' <;> omega

theorem isPrefixOf_single_head {a : Nat} {l : List Nat} :
    [a].isPrefixOf l = true ↔ l.head? = some a := by
  cases l with
  | nil => simp [List.isPrefixOf]
  | cons x t =>
    simp [List.isPrefixOf]
    exact eq_comm

theorem PResult.bind_eq_ok {α β : Type} {r : PResult α} {f : List Nat → α → PResult β}
    {rest : List Nat} {b : β} (h : r.bind f = .ok rest b) :
    ∃ i a, r = .ok i a ∧ f i a = .ok rest b := by
  cases r with
  | ok i a => exact ⟨i, a, rfl, h⟩
  | incomplete => simp [PResult.bind] at h
  | err e => simp [PResult.bind] at h

theorem multiprocess_ok_shape {i r : List Nat} {v : ThreadId}
    (h : multiprocess_thread_id i = .ok r v) : ∃ p t, v = .MultiProcess p t := by
  unfold multiprocess_thread_id at h
  obtain ⟨i1, a1, _, h⟩ := PResult.bind_eq_ok h
  obtain ⟨i2, pid, _, h⟩ := PResult.bind_eq_ok h
  obtain ⟨i3, a3, _, h⟩ := PResult.bind_eq_ok h
  obtain ⟨i4, tid, _, h⟩ := PResult.bind_eq_ok h
  injection h with _ hv
  exact ⟨pid, tid, hv.symm⟩

/-! ### Claim theorems -/

/-- C3: body expansion is total and deterministic: for every input byte
sequence `expand_body` terminates with either the expanded output or one
of exactly the three errors `EscapedByte`, `RunLengthCount`,
`RunLengthByte`; under the release-profile wrapping arithmetic embedded
here the index and count arithmetic has no other failure mode.  Each of
the three errors is in fact reachable. -/
theorem expand_body_total :
    (∀ body : List Nat,
      (∃ out, expand_body body = .ok out) ∨
      expand_body body = .error .EscapedByte ∨
      expand_body body = .error .RunLengthCount ∨
      expand_body body = .error .RunLengthByte) ∧
    expand_body [125] = .error .EscapedByte ∧
    expand_body [42] = .error .RunLengthCount ∧
    expand_body [42, 48] = .error .RunLengthByte := by
  refine ⟨fun body => ?_, by decide, by decide, by decide⟩
  cases h : expand_body body with
  | ok out => exact Or.inl ⟨out, rfl⟩
  | error e =>
    cases e
    · exact Or.inr (Or.inl rfl)
    · exact Or.inr (Or.inr (Or.inl rfl))
    · exact Or.inr (Or.inr (Or.inr rfl))

/-- C8: on a buffer consisting entirely of hex digits (the empty buffer
included) `hex_number` returns the distinct needs-more-input outcome,
not success and not a definite error. -/
theorem hex_number_streaming (i : List Nat)
    (hhex : ∀ c ∈ i, (to_digit16 c).isSome) : hex_number i = .incomplete :=
  hex_number_allHex i hhex

/-- Witness for C8 at the all-hex buffer `1af` and the empty buffer. -/
theorem hex_number_streaming_witness :
    hex_number [49, 97, 102] = .incomplete ∧ hex_number [] = .incomplete :=
  ⟨hex_number_streaming [49, 97, 102] (by decide),
   hex_number_streaming [] (by decide)⟩

/-- C7 counterexample: on the 17-hex-digit run `1` followed by sixteen
`0`s and a terminator `z`, `hex_number` returns 1, whereas the claimed
big-endian unsigned-64-bit interpretation of the digits is `2 ^ 64`
(which is 0 when reduced to 64 bits): the shift amount `4 * 16` is
masked to 0 by the release-profile `u64` shift, so the claim as stated
is false for runs longer than 16 digits. -/
theorem hex_number_overflow_counterexample :
    hex_number (49 :: (List.replicate 16 48 ++ [122])) = .ok [122] 1 ∧
    hexBE ((49 :: List.replicate 16 48).map hexVal) = 2 ^ 64 ∧
    (1 : Nat) ≠ 2 ^ 64 ∧ (1 : Nat) ≠ 2 ^ 64 % 2 ^ 64 := by
  refine ⟨by decide, by decide, by decide, by decide⟩

/-- C7 (amended): for every input whose maximal leading run of hex
digits is nonempty, of length at most 16, and followed by a non-hex
byte, `hex_number` consumes exactly that run, returns its big-endian
unsigned-64-bit value together with the unconsumed remainder; and on an
input beginning with a non-hex byte it fails with `ExpectedHexDigit`
(with `Many1` appended to the cause chain). -/
theorem hex_number_spec_amended :
    (∀ (run rest : List Nat) (x : Nat), run ≠ [] → run.length ≤ 16 →
      (∀ c ∈ run, (to_digit16 c).isSome) → to_digit16 x = none →
      hex_number (run ++ x :: rest) = .ok (x :: rest) (hexBE (run.map hexVal))) ∧
    (∀ (c : Nat) (rest : List Nat), to_digit16 c = none →
      hex_number (c :: rest) =
        .err { input := rest, kind := .ExpectedHexDigit c, context := none,
               causes := [.Nom .Many1] }) := by
  constructor
  · intro run rest x hne hlen hhex hx
    rw [hex_number_run hx run rest hne hhex, hexRun_eq_hexBE run hlen hhex]
  · intro c rest hc
    exact hex_number_none rest hc

/-- Witness for amended C7: `22_foo` parses to 0x22 with remainder
`_foo`, and `zaa1` fails definitively. -/
theorem hex_number_spec_amended_witness :
    hex_number ([50, 50] ++ 95 :: [102, 111, 111]) =
      .ok (95 :: [102, 111, 111]) (hexBE ([50, 50].map hexVal)) ∧
    hex_number (122 :: [97, 97, 49]) =
      .err { input := [97, 97, 49], kind := .ExpectedHexDigit 122, context := none,
             causes := [.Nom .Many1] } :=
  ⟨hex_number_spec_amended.1 [50, 50] [102, 111, 111] 95 (by decide) (by decide)
    (by decide) (by decide),
   hex_number_spec_amended.2 122 [97, 97, 49] (by decide)⟩

/-- C10: an input beginning with the byte `p` can never make `thread_id`
return a `SingleProcess` value: `p` is not a hex digit, so the
single-process fallback necessarily fails on such input. -/
theorem thread_id_p_never_single (i rest : List Nat) (tid : Nat)
    (hp : i.head? = some 112) :
    thread_id i ≠ .ok rest (.SingleProcess tid) := by
  match i, hp with
  | 112 :: t, _ =>
    intro hok
    have hsingle : singleprocess_thread_id (112 :: t) =
        .err { input := t, kind := .ExpectedHexDigit 112, context := none,
               causes := [.Nom .Many1] } := by
      unfold singleprocess_thread_id
      rw [hex_number_none t (by decide)]
      rfl
    unfold thread_id pcontext alt2 at hok
    cases hmulti : multiprocess_thread_id (112 :: t) with
    | ok r v =>
      rw [hmulti] at hok
      obtain ⟨p, t', hv⟩ := multiprocess_ok_shape hmulti
      simp only [hv] at hok
      injection hok with _ hvv
      cases hvv
    | incomplete =>
      rw [hmulti] at hok
      cases hok
    | err e =>
      rw [hmulti, hsingle] at hok
      cases hok

/-- Witness for C10 at the input `p1.2;`. -/
theorem thread_id_p_never_single_witness :
    thread_id [112, 49, 46, 50, 59] ≠ .ok [59] (.SingleProcess 7) :=
  thread_id_p_never_single [112, 49, 46, 50, 59] [59] 7 rfl

/-- C9 counterexample: the input `p1.2` begins with `p` and its
remainder `1.2` matches `hex '.' hex` exactly, yet under the streaming
semantics `thread_id` reports needs-more-input (the final number might
continue), so it does not parse as `MultiProcess` there. -/
theorem thread_id_alt_counterexample :
    thread_id [112, 49, 46, 50] = .incomplete ∧
    (PResult.incomplete : PResult ThreadId) ≠ .ok [] (.MultiProcess 1 2) := by
  exact ⟨by decide, by decide⟩

/-- C9 (amended): `thread_id` tries the multi-process grammar
`p hex '.' hex` first and the bare-hex single-process grammar second:
an input beginning with `p` whose remainder matches `hex '.' hex`
followed by a terminating non-hex byte parses as `MultiProcess`; when
the first branch fails definitively the second branch runs on the
original input with nothing consumed (its success is returned as is, and
failure of both branches surfaces the second error tagged with context
`thread_id` and an `Alt` cause); a terminated bare hex run parses as
`SingleProcess`. -/
theorem thread_id_spec_amended :
    (∀ (a b rest : List Nat) (x : Nat), a ≠ [] → b ≠ [] →
      (∀ c ∈ a, (to_digit16 c).isSome) → (∀ c ∈ b, (to_digit16 c).isSome) →
      to_digit16 x = none →
      thread_id (112 :: (a ++ 46 :: (b ++ x :: rest))) =
        .ok (x :: rest) (.MultiProcess (hexRun a) (hexRun b))) ∧
    (∀ (i : List Nat) (e : Error), multiprocess_thread_id i = .err e →
      thread_id i =
        (match singleprocess_thread_id i with
         | .ok r v => .ok r v
         | .incomplete => .incomplete
         | .err e2 =>
           .err { input := e2.input, kind := e2.kind, context := some "thread_id",
                  causes := e2.causes ++ [.Nom .Alt] })) ∧
    (∀ (run rest : List Nat) (x : Nat), run ≠ [] →
      (∀ c ∈ run, (to_digit16 c).isSome) → to_digit16 x = none →
      thread_id (run ++ x :: rest) = .ok (x :: rest) (.SingleProcess (hexRun run))) := by
  have halt : ∀ (i : List Nat) (e : Error), multiprocess_thread_id i = .err e →
      thread_id i =
        (match singleprocess_thread_id i with
         | .ok r v => .ok r v
         | .incomplete => .incomplete
         | .err e2 =>
           .err { input := e2.input, kind := e2.kind, context := some "thread_id",
                  causes := e2.causes ++ [.Nom .Alt] }) := by
    intro i e he
    unfold thread_id pcontext alt2
    rw [he]
    cases hs : singleprocess_thread_id i with
    | ok r v => rfl
    | incomplete => rfl
    | err e2 => simp [Error.append, Error.add_context]
  refine ⟨?_, halt, ?_⟩
  · intro a b rest x ha hb hhexa hhexb hx
    have hm : multiprocess_thread_id (112 :: (a ++ 46 :: (b ++ x :: rest))) =
        .ok (x :: rest) (.MultiProcess (hexRun a) (hexRun b)) := by
      unfold multiprocess_thread_id
      rw [tag_single]
      simp only [PResult.bind]
      rw [hex_number_run (by decide) a (b ++ x :: rest) ha hhexa]
      simp only [PResult.bind]
      rw [tag_single]
      simp only [PResult.bind]
      rw [hex_number_run hx b rest hb hhexb]
    unfold thread_id pcontext alt2
    rw [hm]
  · intro run rest x hne hhex hx
    match run, hne with
    | c0 :: run', _ =>
      have hc0 : (to_digit16 c0).isSome := hhex c0 (by simp)
      obtain ⟨v0, hv0⟩ := Option.isSome_iff_exists.mp hc0
      have hc0p : c0 ≠ 112 := (hex_byte_not_special hv0).2.2.2.1
      have htag : tag [112] ((c0 :: run') ++ x :: rest) =
          .err (Error.new_inner ((c0 :: run') ++ x :: rest) (.Nom .Tag)) := by
        have h1 : [112].isPrefixOf ((c0 :: run') ++ x :: rest) = false := by
          simp [List.isPrefixOf]
          omega
        have h2 : ((c0 :: run') ++ x :: rest).isPrefixOf [112] = false := by
          simp [List.isPrefixOf]
        simp only [tag, h1, h2, Bool.false_eq_true, if_false]
      have hm : multiprocess_thread_id ((c0 :: run') ++ x :: rest) =
          .err (Error.new_inner ((c0 :: run') ++ x :: rest) (.Nom .Tag)) := by
        unfold multiprocess_thread_id
        rw [htag]
        rfl
      rw [halt _ _ hm]
      unfold singleprocess_thread_id
      rw [hex_number_run hx (c0 :: run') rest (by simp) hhex]
      rfl

/-- Witness for amended C9: `p1.2;` parses as multi-process, `1;` as
single-process. -/
theorem thread_id_spec_amended_witness :
    thread_id (112 :: ([49] ++ 46 :: ([50] ++ 59 :: []))) =
      .ok (59 :: []) (.MultiProcess (hexRun [49]) (hexRun [50])) ∧
    thread_id ([49] ++ 59 :: []) = .ok (59 :: []) (.SingleProcess (hexRun [49])) :=
  ⟨thread_id_spec_amended.1 [49] [50] [] 59 (by decide) (by decide) (by decide)
    (by decide) (by decide),
   thread_id_spec_amended.2.2 [49] [] 59 (by decide) (by decide) (by decide)⟩

/-- C4 counterexample: in the body `7D 03 2A 21` the escape pair emits
the output byte `0x23`, and the run-length indicator that follows is
claimed to make that preceding output byte occur `0x21 - 28 = 5` times
in total; the code instead repeats the raw input byte `0x03` before the
indicator, so `0x23` occurs only once in the output. -/
theorem expand_rle_counterexample :
    expand_body [125, 3, 42, 33] = .ok [35, 3, 3, 3, 3] ∧
    33 - 28 = 5 ∧
    [35, 3, 3, 3, 3].count 35 = 1 ∧ (1 : Nat) ≠ 5 := by
  exact ⟨by decide, by decide, by decide, by decide⟩

/-- C4 (amended): at a run-length indicator at index `idx ≥ 1` with
count byte `c`, expansion appends `(c + 227) % 256` further copies
(`c - 28 - 1` for `29 ≤ c ≤ 255`) of the raw input byte at `idx - 1` —
the byte preceding the indicator in the input, which is the escaped
(pre-XOR) byte when that position closes an escape pair — and advances
past the count byte; a missing count byte yields `RunLengthCount`, and
an indicator at index 0 yields `RunLengthByte`; bodies whose indicator
is preceded by a literal byte expand as the spec illustrates:
`foo_X*!_bar` becomes `foo_XXXXX_bar`. -/
theorem expand_rle_spec_amended :
    (∀ (body : List Nat) (fuel idx : Nat) (out : List Nat) (c prev : Nat),
      1 ≤ idx → idx < 2 ^ 64 →
      body[idx]? = some RUN_LENGTH_INDICATOR → body[idx + 1]? = some c →
      body[idx - 1]? = some prev →
      expandGo body (fuel + 1) idx out =
        expandGo body fuel (idx + 2) (out ++ List.replicate ((c + 227) % 256) prev)) ∧
    (∀ c : Nat, 29 ≤ c → c ≤ 255 → (c + 227) % 256 = c - 28 - 1) ∧
    (∀ (body : List Nat) (fuel idx : Nat) (out : List Nat),
      body[idx]? = some RUN_LENGTH_INDICATOR → body[idx + 1]? = none →
      expandGo body (fuel + 1) idx out = .error .RunLengthCount) ∧
    (∀ (body : List Nat) (fuel : Nat) (out : List Nat) (c : Nat),
      body.length < 2 ^ 64 - 1 →
      body[0]? = some RUN_LENGTH_INDICATOR → body[1]? = some c →
      expandGo body (fuel + 1) 0 out = .error .RunLengthByte) ∧
    expand_body [102, 111, 111, 95, 88, 42, 33, 95, 98, 97, 114] =
      .ok [102, 111, 111, 95, 88, 88, 88, 88, 88, 95, 98, 97, 114] := by
  refine ⟨?_, ?_, ?_, ?_, by decide⟩
  · intro body fuel idx out c prev h1 h2 hstar hcount hprev
    exact expandGo_rle_step body fuel idx out h1 h2 hstar hcount hprev
  · intro c hc1 hc2
    omega
  · intro body fuel idx out hstar hcount
    exact expandGo_rle_missing_count body fuel idx out hstar hcount
  · intro body fuel out c hlen hstar hcount
    exact expandGo_rle_at_start body fuel out hlen hstar hcount

/-- Witness for amended C4: one expansion step of the body `X*!` at the
indicator (index 1), appending four further copies of `X`. -/
theorem expand_rle_spec_amended_witness :
    expandGo [88, 42, 33] (1 + 1) 1 [88] =
      expandGo [88, 42, 33] 1 (1 + 2) ([88] ++ List.replicate ((33 + 227) % 256) 88) :=
  expand_rle_spec_amended.1 [88, 42, 33] 1 1 [88] 33 88 (by decide) (by decide)
    (by decide) (by decide) (by decide)

/-- C1 counterexample: the bodies `E00` and `#` contain no escape or
run-length indicator bytes, yet their correctly checksummed framings do
not decode back to the body: `$E00#a5` is interpreted as an application
error reply (code 0), and a `#` inside the body derails the framing. -/
theorem packet_roundtrip_counterexample :
    packet_body [36, 69, 48, 48, 35, 97, 53] =
      some (.err { input := [48, 48], kind := .App 0, context := none, causes := [] }) ∧
    packet_body [36, 69, 48, 48, 35, 97, 53] ≠ some (.ok [] [69, 48, 48]) ∧
    packet_body [36, 35, 35, 50, 51] ≠ some (.ok [] [35]) := by
  exact ⟨by decide, by decide, by decide⟩

/-- C1 (amended): for every body `b` containing no escape (0x7D),
run-length indicator (0x2A) or checksum-marker (`#`, 0x23) bytes and not
beginning with the byte `E`, decoding the framed packet
`$ b # hex2(sum(b) mod 256)` with `packet_body` succeeds, returning `b`
as the expanded body and an empty remainder. -/
theorem packet_roundtrip_amended (b : List Nat)
    (hclean : ∀ x ∈ b, x ≠ 125 ∧ x ≠ 42 ∧ x ≠ 35)
    (hE : b.head? ≠ some 69) :
    packet_body (36 :: (b ++ 35 :: hex2 (compute_checksum b))) = some (.ok [] b) := by
  have hcs : compute_checksum b < 256 := Nat.mod_lt _ (by omega)
  have h1 : to_digit16 (hexChar (compute_checksum b / 16)) =
      some (compute_checksum b / 16) := to_digit16_hexChar (by omega)
  have h2 : to_digit16 (hexChar (compute_checksum b % 16)) =
      some (compute_checksum b % 16) := to_digit16_hexChar (by omega)
  have hb35 : 35 ∉ b := fun h => (hclean 35 h).2.2 rfl
  have hshape : (36 :: (b ++ 35 :: hex2 (compute_checksum b))) =
      (36 :: (b ++ 35 :: hexChar (compute_checksum b / 16) ::
        hexChar (compute_checksum b % 16) :: ([] : List Nat))) := rfl
  rw [hshape, packet_body_frame b [] hb35 h1 h2]
  have hval : ((compute_checksum b / 16) <<< 4) + compute_checksum b % 16 =
      compute_checksum b := by
    rw [Nat.shiftLeft_eq]
    omega
  rw [packetTail, hval, if_neg (by simp)]
  rw [if_neg (by
    intro hpre
    exact hE (isPrefixOf_single_head.mp hpre))]
  rw [expand_body_clean b (fun x hx =>
    ⟨(hclean x hx).1, (hclean x hx).2.1⟩)]

/-- Witness for amended C1 at the spec's own example `$foo#44`. -/
theorem packet_roundtrip_amended_witness :
    packet_body (36 :: ([102, 111, 111] ++ 35 :: hex2 (compute_checksum [102, 111, 111]))) =
      some (.ok [] [102, 111, 111]) :=
  packet_roundtrip_amended [102, 111, 111] (by decide) (by decide)

/-- C2: for every well-framed input whose transmitted two-hex-digit
checksum value differs from the sum of the raw body bytes modulo 256,
`packet_body` fails with `FailedChecksum` carrying the transmitted
(expected) and recomputed (actual) values; the error is produced for
arbitrary body content, so neither body expansion nor application-error
interpretation touches the body. -/
theorem packet_checksum_mismatch (body rest : List Nat) (c1 c2 v1 v2 : Nat)
    (hbody : 35 ∉ body) (h1 : to_digit16 c1 = some v1) (h2 : to_digit16 c2 = some v2)
    (hne : (v1 <<< 4) + v2 ≠ compute_checksum body) :
    packet_body (36 :: (body ++ 35 :: c1 :: c2 :: rest)) =
      some (.err { input := body,
                   kind := .FailedChecksum ((v1 <<< 4) + v2) (compute_checksum body),
                   context := none, causes := [] }) := by
  rw [packet_body_frame body rest hbody h1 h2, packetTail, if_pos hne]
  rfl

/-- Witness for C2: `$foo#00` has transmitted checksum 0 but body sum
0x44, and fails with exactly those two values; the body `}` (an escape
indicator that could not expand) shows expansion is not attempted. -/
theorem packet_checksum_mismatch_witness :
    packet_body (36 :: ([102, 111, 111] ++ 35 :: 48 :: 48 :: [])) =
      some (.err { input := [102, 111, 111],
                   kind := .FailedChecksum ((0 <<< 4) + 0) (compute_checksum [102, 111, 111]),
                   context := none, causes := [] }) ∧
    packet_body (36 :: ([125] ++ 35 :: 48 :: 48 :: [])) =
      some (.err { input := [125],
                   kind := .FailedChecksum ((0 <<< 4) + 0) (compute_checksum [125]),
                   context := none, causes := [] }) :=
  ⟨packet_checksum_mismatch [102, 111, 111] [] 48 48 0 0 (by decide) (by decide)
    (by decide) (by decide),
   packet_checksum_mismatch [125] [] 48 48 0 0 (by decide) (by decide)
    (by decide) (by decide)⟩

/-- C5: a checksum-valid packet whose raw body is exactly `E` followed
by two hex digits fails with `App(code)` where `code` is the two-digit
hex value; when further bytes follow the two digits the
`assert!(rest.is_empty())` in the source is violated, modelled here as
the `none` (panic) outcome rather than a recoverable error. -/
theorem packet_app_error_and_assert (h1 h2 v1 v2 c1 c2 w1 w2 : Nat)
    (extra rest : List Nat)
    (hh1 : to_digit16 h1 = some v1) (hh2 : to_digit16 h2 = some v2)
    (hc1 : to_digit16 c1 = some w1) (hc2 : to_digit16 c2 = some w2)
    (hcs : (w1 <<< 4) + w2 = compute_checksum (69 :: h1 :: h2 :: extra))
    (hextra : 35 ∉ extra) :
    (extra = [] →
      packet_body (36 :: ((69 :: h1 :: h2 :: extra) ++ 35 :: c1 :: c2 :: rest)) =
        some (.err { input := h1 :: h2 :: extra, kind := .App ((v1 <<< 4) + v2),
                     context := none, causes := [] })) ∧
    (extra ≠ [] →
      packet_body (36 :: ((69 :: h1 :: h2 :: extra) ++ 35 :: c1 :: c2 :: rest)) =
        none) := by
  have hb : 35 ∉ (69 :: h1 :: h2 :: extra) := by
    simp only [List.mem_cons, not_or]
    exact ⟨by omega, fun h => (hex_byte_not_special hh1).1 h.symm,
      fun h => (hex_byte_not_special hh2).1 h.symm, hextra⟩
  rw [packet_body_frame _ rest hb hc1 hc2, hcs, packetTail, if_neg (by simp)]
  rw [if_pos (by simp [List.isPrefixOf])]
  simp only [List.drop_succ_cons, List.drop_zero]
  rw [two_digit_hex_ok extra hh1 hh2]
  constructor
  · intro he
    subst he
    rfl
  · intro he
    simp [he]

/-- Witness for C5: `$E00#a5` fails with `App 0`; `$E00x#1d` (one byte
after the code, checksum still valid) hits the assertion. -/
theorem packet_app_error_and_assert_witness :
    packet_body (36 :: ((69 :: 48 :: 48 :: []) ++ 35 :: 97 :: 53 :: [])) =
      some (.err { input := 48 :: 48 :: [], kind := .App ((0 <<< 4) + 0),
                   context := none, causes := [] }) ∧
    packet_body (36 :: ((69 :: 48 :: 48 :: [120]) ++ 35 :: 49 :: 100 :: [])) =
      none :=
  ⟨(packet_app_error_and_assert 48 48 0 0 97 53 10 5 [] [] (by decide) (by decide)
      (by decide) (by decide) (by decide) (by decide)).1 rfl,
   (packet_app_error_and_assert 48 48 0 0 49 100 1 13 [120] [] (by decide) (by decide)
      (by decide) (by decide) (by decide) (by decide)).2 (by decide)⟩

/-- C6: `halt_reason` parses `T`, two hex digits (the signal number),
the literal `thread:`, a thread id, and `;`; the bytes after the
semicolon become the reason: `none` when empty, `some text` when
non-empty valid UTF-8, and a UTF-8 decoding error otherwise; on success
the whole input is consumed (empty remainder). -/
theorem halt_reason_spec (s1 s2 v1 v2 : Nat) (mid trailing : List Nat) (th : ThreadId)
    (h1 : to_digit16 s1 = some v1) (h2 : to_digit16 s2 = some v2)
    (hth : thread_id mid = .ok (59 :: trailing) th) :
    halt_reason (84 :: s1 :: s2 :: (threadTag ++ mid)) =
      (if trailing = [] then
         .ok [] { signal_num := (v1 <<< 4) + v2, thread := th, reason := none }
       else
         match utf8Validate trailing 0 with
         | some e => .err (Error.new_inner trailing (.Utf8 e))
         | none =>
           .ok [] { signal_num := (v1 <<< 4) + v2, thread := th,
                    reason := some trailing }) :=
  halt_reason_frame mid trailing th h1 h2 hth

/-- Witness for C6 at the spec example `T00thread:29164b;`, with a
non-empty valid-UTF-8 reason variant and a non-UTF-8 reason variant. -/
theorem halt_reason_spec_witness :
    halt_reason (84 :: 48 :: 48 :: (threadTag ++ [50, 57, 49, 54, 52, 98, 59])) =
      .ok [] { signal_num := 0, thread := .SingleProcess 2692683, reason := none } ∧
    halt_reason (84 :: 48 :: 48 :: (threadTag ++ [50, 57, 49, 54, 52, 98, 59, 104, 105])) =
      .ok [] { signal_num := 0, thread := .SingleProcess 2692683,
               reason := some [104, 105] } ∧
    halt_reason (84 :: 48 :: 48 :: (threadTag ++ [50, 57, 49, 54, 52, 98, 59, 255])) =
      .err (Error.new_inner [255] (.Utf8 { valid_up_to := 0, error_len := some 1 })) := by
  refine ⟨?_, ?_, ?_⟩
  · have h := halt_reason_spec 48 48 0 0 [50, 57, 49, 54, 52, 98, 59] []
      (.SingleProcess 2692683) (by decide) (by decide) (by decide)
    simpa using h
  · have h := halt_reason_spec 48 48 0 0 [50, 57, 49, 54, 52, 98, 59, 104, 105] [104, 105]
      (.SingleProcess 2692683) (by decide) (by decide) (by decide)
    simpa using h
  · have h := halt_reason_spec 48 48 0 0 [50, 57, 49, 54, 52, 98, 59, 255] [255]
      (.SingleProcess 2692683) (by decide) (by decide) (by decide)
    simpa using h

end Rdbg
